import Mathlib

/-!
Verification development for the ty-ras client-node library.

The development shallowly embeds the request/response pipeline of
code/client/src/client.ts and code/client/src/encoding.ts (plus the
revisions of the same file shipped in the repository snapshot) into Lean.
JavaScript strings are modelled as List Char, JavaScript numbers used as
HTTP status codes as Int, and JSON values as an inductive type.
-/

/- ### JavaScript string helpers -/

/-- Decimal/hexadecimal rendering used by JS Number.prototype.toString(16):
lowercase hex digits of a natural number. -/
def natToHexLower (n : Nat) : List Char :=
  Nat.toDigits 16 n

/-- The replacement string produced inside constructURLObject by
percent-sign concatenation with charCodeAt(0).toString(16).toUpperCase(). -/
def percentHexUpper (n : Nat) : List Char :=
  '%' :: (Nat.toDigits 16 n).map Char.toUpper

/- ### Query values (the values of the query record given to a call) -/

/-- A scalar JavaScript value that can occur in a query record, together
with enough structure to express JS template-literal coercion. -/
inductive QueryScalar where
  | undef
  | null
  | str (s : List Char)
  | num (n : Int)
  | bool (b : Bool)
deriving DecidableEq

/-- JS template-literal coercion (backquote-dollar interpolation) of a
query scalar into a string. -/
def QueryScalar.coerceToString : QueryScalar → List Char
  | .undef => "undefined".data
  | .null => "null".data
  | .str s => s
  | .num n => (toString n).data
  | .bool true => "true".data
  | .bool false => "false".data

/-- A value of one entry of the query record: either a scalar or an array
of scalars. -/
inductive QueryValue where
  | scalar (v : QueryScalar)
  | array (vs : List QueryScalar)
deriving DecidableEq

/-- The query record, in JS object insertion order. -/
abbrev QueryMap := List (List Char × QueryValue)

/- ### URLSearchParams serialization (www-form-urlencoded) -/

/-- UTF-8 bytes of a single code point. -/
def utf8Bytes (c : Char) : List Nat :=
  let n := c.toNat
  if n < 0x80 then [n]
  else if n < 0x800 then
    [0xC0 + n / 0x40, 0x80 + n % 0x40]
  else if n < 0x10000 then
    [0xE0 + n / 0x1000, 0x80 + (n / 0x40) % 0x40, 0x80 + n % 0x40]
  else
    [0xF0 + n / 0x40000, 0x80 + (n / 0x1000) % 0x40, 0x80 + (n / 0x40) % 0x40,
      0x80 + n % 0x40]

/-- Characters that the application/x-www-form-urlencoded serializer leaves
as-is: ASCII alphanumerics and asterisk, minus, period, underscore. -/
def isFormUnreservedByte (b : Nat) : Bool :=
  (0x30 ≤ b && b ≤ 0x39) || (0x41 ≤ b && b ≤ 0x5A) || (0x61 ≤ b && b ≤ 0x7A) ||
    b = 0x2A || b = 0x2D || b = 0x2E || b = 0x5F

/-- Uppercase hex digit of a value below 16. -/
def hexUpperDigit (n : Nat) : Char :=
  if n < 10 then Char.ofNat (0x30 + n) else Char.ofNat (0x41 + n - 10)

/-- Percent-escape of one byte, as emitted by the form-urlencoded
serializer. -/
def percentEscapeByte (b : Nat) : List Char :=
  ['%', hexUpperDigit (b / 16), hexUpperDigit (b % 16)]

/-- application/x-www-form-urlencoded encoding of one string component
(key or value): UTF-8 bytes with space as plus and other non-unreserved
bytes percent-escaped. -/
def formEncodeString (s : List Char) : List Char :=
  (s.flatMap utf8Bytes).flatMap fun b =>
    if b = 0x20 then ['+']
    else if isFormUnreservedByte b then [Char.ofNat b]
    else percentEscapeByte b

/-- Joining of encoded key=value pairs with ampersands, as done by
URLSearchParams.toString. -/
def joinPairsWithAmp : List (List Char) → List Char
  | [] => []
  | [x] => x
  | x :: xs => x ++ '&' :: joinPairsWithAmp xs

/-- URLSearchParams.toString on a list of (key, value) string pairs. -/
def serializeURLSearchParams (pairs : List (List Char × List Char)) : List Char :=
  joinPairsWithAmp (pairs.map fun kv => formEncodeString kv.1 ++ '=' :: formEncodeString kv.2)

/-- The pair list built inside getURLSearchParams:
Object.entries(query).filter(value not undefined).flatMap(array expansion
or single coerced pair). -/
def queryToPairs (query : QueryMap) : List (List Char × List Char) :=
  (query.filter fun kv => kv.2 ≠ QueryValue.scalar QueryScalar.undef).flatMap fun kv =>
    match kv.2 with
    | .array vs => vs.map fun v => (kv.1, v.coerceToString)
    | .scalar v => [(kv.1, v.coerceToString)]

/-- getURLSearchParams from client.ts: serialize the filtered, expanded
entry list with URLSearchParams.toString. -/
def getURLSearchParams (query : QueryMap) : List Char :=
  serializeURLSearchParams (queryToPairs query)

/- ### constructURLObject (client.ts, current revision) -/

/-- constructURLObject from client.ts: concatenate the common path prefix
with the caller path, replace every question mark and hash character by a
percent sign followed by the uppercased hex char code, and attach the
serialized query as the search component (empty, or prefixed with a
question mark). -/
def constructURLObject (basePath : List Char) (path : List Char)
    (query : Option QueryMap) : List Char × List Char :=
  let pathname := (basePath ++ path).flatMap fun c =>
    if c = '?' ∨ c = '#' then percentHexUpper c.toNat else [c]
  let search := getURLSearchParams (query.getD [])
  (pathname, if search.length > 0 then '?' :: search else [])

/- ### Specification-side definitions (from the wording of the claims) -/

/-- Specification wording of the pathname encoding: every literal question
mark becomes the three characters percent-three-F and every literal hash
becomes percent-two-three; all other characters are kept. -/
def specEncodeDelimiters (s : List Char) : List Char :=
  s.flatMap fun c =>
    if c = '?' then "%3F".data
    else if c = '#' then "%23".data
    else [c]

/-- Specification wording of query serialization: iterate entries in
insertion order, drop entries whose value is the absent scalar, expand an
array value into one pair per element preserving order, stringify scalar
values. -/
def specQueryPairs : QueryMap → List (List Char × List Char)
  | [] => []
  | (k, v) :: rest =>
    (match v with
     | .scalar .undef => []
     | .scalar s => [(k, s.coerceToString)]
     | .array vs => vs.map fun s => (k, s.coerceToString)) ++ specQueryPairs rest

/- ### Helper lemmas -/

lemma encodeDelimiterChar_eq (c : Char) :
    (if c = '?' ∨ c = '#' then percentHexUpper c.toNat else [c]) =
      (if c = '?' then "%3F".data else if c = '#' then "%23".data else [c]) := by
  by_cases h1 : c = '?'
  · subst h1; decide
  · by_cases h2 : c = '#'
    · subst h2; decide
    · simp [h1, h2]

lemma constructURLObject_pathname (basePath path : List Char) (query : Option QueryMap) :
    (constructURLObject basePath path query).1 = specEncodeDelimiters (basePath ++ path) := by
  unfold constructURLObject specEncodeDelimiters
  exact congrArg (List.flatMap (basePath ++ path)) (funext encodeDelimiterChar_eq)

lemma specEncodeDelimiters_no_question (s : List Char) :
    '?' ∉ specEncodeDelimiters s := by
  intro h
  simp only [specEncodeDelimiters, List.mem_flatMap] at h
  obtain ⟨a, -, hc⟩ := h
  by_cases h1 : a = '?'
  · simp [h1] at hc
  · by_cases h2 : a = '#'
    · simp [h1, h2] at hc
    · simp [h1, h2] at hc
      exact h1 hc.symm

lemma specEncodeDelimiters_no_hash (s : List Char) :
    '#' ∉ specEncodeDelimiters s := by
  intro h
  simp only [specEncodeDelimiters, List.mem_flatMap] at h
  obtain ⟨a, -, hc⟩ := h
  by_cases h1 : a = '?'
  · simp [h1] at hc
  · by_cases h2 : a = '#'
    · simp [h1, h2] at hc
    · simp [h1, h2] at hc
      exact h2 hc.symm

lemma queryToPairs_nil : queryToPairs [] = [] := rfl

lemma queryToPairs_append (a b : QueryMap) :
    queryToPairs (a ++ b) = queryToPairs a ++ queryToPairs b := by
  simp [queryToPairs, List.filter_append, List.flatMap_append]

lemma queryToPairs_eq_spec (query : QueryMap) :
    queryToPairs query = specQueryPairs query := by
  induction query with
  | nil => rfl
  | cons kv rest ih =>
    obtain ⟨k, v⟩ := kv
    cases v with
    | scalar s =>
      cases s <;>
        simp [queryToPairs, specQueryPairs, List.filter_cons, List.flatMap_cons,
          ← ih, queryToPairs]
    | array vs =>
      simp [queryToPairs, specQueryPairs, List.filter_cons, List.flatMap_cons,
        ← ih, queryToPairs]

lemma serializeURLSearchParams_cons_ne_nil (p : List Char × List Char)
    (ps : List (List Char × List Char)) :
    serializeURLSearchParams (p :: ps) ≠ [] := by
  intro h
  unfold serializeURLSearchParams at h
  simp only [List.map_cons] at h
  cases hm : ps.map fun kv => formEncodeString kv.1 ++ '=' :: formEncodeString kv.2 with
  | nil =>
    rw [hm] at h
    unfold joinPairsWithAmp at h
    have := congrArg List.length h
    simp at this
  | cons x xs =>
    rw [hm] at h
    unfold joinPairsWithAmp at h
    have := congrArg List.length h
    simp at this

lemma queryToPairs_cons (k : List Char) (v : QueryValue) (rest : QueryMap) :
    queryToPairs ((k, v) :: rest) =
      (match v with
       | .scalar .undef => []
       | .scalar s => [(k, s.coerceToString)]
       | .array vs => vs.map fun s => (k, s.coerceToString)) ++ queryToPairs rest := by
  rw [queryToPairs_eq_spec, queryToPairs_eq_spec]
  rfl

/- ### Claim theorems for URL path and query construction -/

/-- C3: for every commonPathPrefix and caller path, the constructed
pathname is the concatenation with every literal question mark
percent-encoded as percent-3F and every hash as percent-23, and hence the
outgoing pathname never contains an unencoded question mark or hash. -/
theorem claim_C3_path_delimiters_encoded (basePath path : List Char)
    (query : Option QueryMap) :
    (constructURLObject basePath path query).1 = specEncodeDelimiters (basePath ++ path) ∧
    '?' ∉ (constructURLObject basePath path query).1 ∧
    '#' ∉ (constructURLObject basePath path query).1 := by
  have h := constructURLObject_pathname basePath path query
  exact ⟨h, h ▸ specEncodeDelimiters_no_question _, h ▸ specEncodeDelimiters_no_hash _⟩

example :
    (constructURLObject "/api/".data "hello/?q#f".data none).1 =
      "/api/hello/%3Fq%23f".data := by decide

/-- C4: query serialization iterates entries in insertion order, drops
absent values, expands arrays preserving order, stringifies scalars, and
the search component is empty exactly when no pairs remain, else a
question mark followed by the ampersand-joined encoded pairs. -/
theorem claim_C4_query_serialization (query : QueryMap) (basePath path : List Char) :
    queryToPairs query = specQueryPairs query ∧
    (constructURLObject basePath path (some query)).2 =
      (match queryToPairs query with
       | [] => ([] : List Char)
       | p :: ps => '?' :: serializeURLSearchParams (p :: ps)) := by
  refine ⟨queryToPairs_eq_spec query, ?_⟩
  unfold constructURLObject
  cases h : queryToPairs query with
  | nil =>
    simp [getURLSearchParams, h, serializeURLSearchParams, joinPairsWithAmp]
  | cons p ps =>
    have hne := serializeURLSearchParams_cons_ne_nil p ps
    have hlen : (serializeURLSearchParams (p :: ps)).length > 0 :=
      List.length_pos.mpr hne
    simp [getURLSearchParams, h, hlen]

/-- C10: only strictly-absent values are dropped from the query; a null
value serializes as the pair key=null, numbers by string coercion, array
elements are all kept in order, and an absent element inside an array
serializes as the string undefined. -/
theorem claim_C10_query_value_edge_cases (pre post : QueryMap) (k : List Char)
    (n : Int) (vs : List QueryScalar) :
    queryToPairs (pre ++ (k, QueryValue.scalar QueryScalar.undef) :: post) =
        queryToPairs pre ++ queryToPairs post ∧
    queryToPairs (pre ++ (k, QueryValue.scalar QueryScalar.null) :: post) =
        queryToPairs pre ++ (k, "null".data) :: queryToPairs post ∧
    queryToPairs (pre ++ (k, QueryValue.scalar (QueryScalar.num n)) :: post) =
        queryToPairs pre ++ (k, (toString n).data) :: queryToPairs post ∧
    queryToPairs (pre ++ (k, QueryValue.array vs) :: post) =
        queryToPairs pre ++ (vs.map fun v => (k, v.coerceToString)) ++ queryToPairs post ∧
    QueryScalar.coerceToString QueryScalar.undef = "undefined".data := by
  refine ⟨?_, ?_, ?_, ?_, rfl⟩ <;>
    rw [queryToPairs_append, queryToPairs_cons] <;>
    simp [QueryScalar.coerceToString]

example :
    getURLSearchParams
      [("a".data, QueryValue.scalar (QueryScalar.str "x y".data)),
       ("b".data, QueryValue.scalar QueryScalar.undef),
       ("c".data, QueryValue.array [QueryScalar.num 1, QueryScalar.undef])] =
      "a=x+y&c=1&c=undefined".data := by decide

/- ### encoding.ts: charset detection from a content-type header -/

/-- The value stored under one header name: the embedding distinguishes
string values from all other runtime values, because tryGetEncoding only
inspects string-valued headers. -/
inductive HdrVal where
  | str (s : List Char)
  | other
deriving DecidableEq

/-- A header map in JS object insertion order. -/
abbrev HeaderMap := List (List Char × HdrVal)

/-- The default fallback encoding, DEFAULT_ENCODING in encoding.ts. -/
def DEFAULT_ENCODING : List Char := "utf8".data

/-- Characters matched by the JS regular-expression whitespace class. -/
def isJsWhitespace (c : Char) : Bool :=
  c ∈ [' ', '\t', '\n', '\r', Char.ofNat 0x0B, Char.ofNat 0x0C, Char.ofNat 0xA0,
    Char.ofNat 0x1680, Char.ofNat 0x2000, Char.ofNat 0x2001, Char.ofNat 0x2002,
    Char.ofNat 0x2003, Char.ofNat 0x2004, Char.ofNat 0x2005, Char.ofNat 0x2006,
    Char.ofNat 0x2007, Char.ofNat 0x2008, Char.ofNat 0x2009, Char.ofNat 0x200A,
    Char.ofNat 0x2028, Char.ofNat 0x2029, Char.ofNat 0x202F, Char.ofNat 0x205F,
    Char.ofNat 0x3000, Char.ofNat 0xFEFF]

/-- Attempt of the charset regular expression directly after a semicolon:
skip whitespace greedily, require the eight characters charset= matched
case-insensitively, then capture one or more characters that are neither
whitespace nor a semicolon. -/
def tryCharsetAfterSemicolon (cs : List Char) : Option (List Char) :=
  let cs1 := cs.dropWhile isJsWhitespace
  if ("charset=".data).isPrefixOf (cs1.map Char.toLower) then
    let tok := (cs1.drop 8).takeWhile fun c => !isJsWhitespace c && c != ';'
    if tok.isEmpty then none else some tok
  else none

/-- Leftmost match of the charset regular expression: the pattern starts
with a literal semicolon, so candidate match positions are exactly the
semicolons of the header value, tried left to right. -/
def findCharset : List Char → Option (List Char)
  | [] => none
  | c :: rest =>
    if c = ';' then
      match tryCharsetAfterSemicolon rest with
      | some tok => some tok
      | none => findCharset rest
    else findCharset rest

/-- tryGetEncoding from encoding.ts: iterate headers in insertion order;
for each string-valued header whose name equals content-type
case-insensitively, run the charset regular expression, and stop at the
first successful extraction; fall back to DEFAULT_ENCODING. -/
def tryGetEncoding : HeaderMap → List Char
  | [] => DEFAULT_ENCODING
  | (name, val) :: rest =>
    match val with
    | .str v =>
      if name.map Char.toLower = "content-type".data then
        match findCharset v with
        | some enc => enc
        | none => tryGetEncoding rest
      else tryGetEncoding rest
    | .other => tryGetEncoding rest

/-- Specification wording of charset selection for one header entry: a
string-valued header named content-type (case-insensitively) yields its
well-formed charset token, any other entry yields nothing. -/
def specPickCharset (kv : List Char × HdrVal) : Option (List Char) :=
  match kv.2 with
  | .str v =>
    if kv.1.map Char.toLower = "content-type".data then findCharset v else none
  | .other => none

/-- Specification wording of the resolver: the first header carrying a
well-formed charset parameter in a content-type header decides the
encoding; in every other case (header missing, parameter missing or
malformed) the default utf8 encoding is returned. -/
def specResolveEncoding (headers : HeaderMap) : List Char :=
  (headers.findSome? specPickCharset).getD DEFAULT_ENCODING

lemma tryGetEncoding_eq_spec (headers : HeaderMap) :
    tryGetEncoding headers = specResolveEncoding headers := by
  induction headers with
  | nil => rfl
  | cons kv rest ih =>
    obtain ⟨name, val⟩ := kv
    cases val with
    | str v =>
      by_cases hn : name.map Char.toLower = "content-type".data
      · cases hf : findCharset v with
        | none =>
          simp [tryGetEncoding, specResolveEncoding, List.findSome?_cons,
            specPickCharset, hn, hf] at ih ⊢
          exact ih
        | some enc =>
          simp [tryGetEncoding, specResolveEncoding, List.findSome?_cons,
            specPickCharset, hn, hf]
      · simp [tryGetEncoding, specResolveEncoding, List.findSome?_cons,
          specPickCharset, hn] at ih ⊢
        exact ih
    | other =>
      simp [tryGetEncoding, specResolveEncoding, List.findSome?_cons,
        specPickCharset] at ih ⊢
      exact ih

/-- C5: the default encoding resolver picks the charset token of a
case-insensitively matched content-type header, with the token terminated
by semicolon, whitespace or end of input, and returns the default utf8
encoding when the header is missing, carries no charset parameter, or the
parameter is malformed. -/
theorem claim_C5_default_encoding_resolution (headers : HeaderMap) :
    tryGetEncoding headers = specResolveEncoding headers ∧
    tryGetEncoding [] = "utf8".data ∧
    tryGetEncoding [("content-type".data, HdrVal.str "application/json".data)] =
      "utf8".data ∧
    tryGetEncoding
        [("content-type".data,
          HdrVal.str "application/json; charset=utf16le ; other=ignored".data)] =
      "utf16le".data ∧
    tryGetEncoding [("Content-Type".data, HdrVal.str "text/xml;Charset=ascii".data)] =
      "ascii".data ∧
    tryGetEncoding [("content-type".data, HdrVal.str "application/json; charset=".data)] =
      "utf8".data ∧
    tryGetEncoding [("x-custom".data, HdrVal.str "text/xml; charset=ascii".data)] =
      "utf8".data := by
  exact ⟨tryGetEncoding_eq_spec headers, by decide, by decide, by decide, by decide,
    by decide, by decide⟩

/- ### JSON values -/

mutual

/-- A JSON value, as produced by JSON.parse on a response body. -/
inductive JSVal where
  | null
  | bool (b : Bool)
  | num (n : Int)
  | str (s : List Char)
  | arr (a : JSArr)
  | obj (o : JSObj)

/-- A JSON array. -/
inductive JSArr where
  | nil
  | cons (hd : JSVal) (tl : JSArr)

/-- A JSON object, as an insertion-ordered key-value sequence. -/
inductive JSObj where
  | nil
  | cons (key : List Char) (val : JSVal) (tl : JSObj)

end

/- ### handleResolvingOfResponse (client.ts, current revision) -/

/-- The resolved value of a call: the response headers and the optional
parsed body. -/
structure HTTPInvocationResult where
  headers : HeaderMap
  body : Option JSVal

/-- The rejection value used for non-2xx responses, carrying the observed
status code (or the sentinel minus one). -/
structure Non2xxStatusCodeError where
  statusCode : Int

/-- Chunk accumulation of the data listener in handleResolvingOfResponse:
the accumulator starts undefined, the first chunk replaces it and later
chunks are appended. -/
def accumulateChunks (chunks : List (List Char)) : Option (List Char) :=
  chunks.foldl
    (fun acc c =>
      match acc with
      | none => some c
      | some d => some (d ++ c))
    none

/-- The end listener of handleResolvingOfResponse: classify the observed
status code and either reject with Non2xxStatusCodeError (sentinel minus
one when the code is absent) or resolve with the headers and the parsed
accumulated body (undefined when no data arrived). The JSON.parse call
with the configured reviver is abstracted as the parse argument, exactly
as the source receives the reviver as an argument. -/
def handleResolvingOfResponse (parse : List Char → JSVal)
    (chunks : List (List Char)) (statusCode : Option Int) (headers : HeaderMap) :
    Except Non2xxStatusCodeError HTTPInvocationResult :=
  match statusCode with
  | none => .error ⟨-1⟩
  | some s =>
    if s < 200 ∨ 300 ≤ s then .error ⟨s⟩
    else .ok ⟨headers, (accumulateChunks chunks).map parse⟩

/-- Whether the call promise resolves (true) or rejects (false). -/
def isSuccess : Except Non2xxStatusCodeError HTTPInvocationResult → Bool
  | .ok _ => true
  | .error _ => false

lemma accumulateChunks_from_some (rest : List (List Char)) :
    ∀ d : List Char,
      rest.foldl
        (fun acc c =>
          match acc with
          | none => some c
          | some d => some (d ++ c))
        (some d) = some (d ++ rest.flatten) := by
  induction rest with
  | nil => intro d; simp
  | cons c cs ih =>
    intro d
    simp only [List.foldl_cons, List.flatten_cons, ih (d ++ c), List.append_assoc]

lemma accumulateChunks_eq (chunks : List (List Char)) :
    accumulateChunks chunks =
      (match chunks with
       | [] => none
       | c :: rest => some ((c :: rest).flatten)) := by
  cases chunks with
  | nil => rfl
  | cons c rest =>
    simp only [accumulateChunks, List.foldl_cons, List.flatten_cons]
    exact accumulateChunks_from_some rest c

lemma handleResolvingOfResponse_char (parse : List Char → JSVal)
    (chunks : List (List Char)) (headers : HeaderMap) (t : Int) :
    handleResolvingOfResponse parse chunks (some t) headers =
      (if 200 ≤ t ∧ t < 300 then
        .ok ⟨headers, (accumulateChunks chunks).map parse⟩
       else .error ⟨t⟩) := by
  simp only [handleResolvingOfResponse]
  by_cases h : 200 ≤ t ∧ t < 300
  · rw [if_neg (by omega), if_pos h]
  · rw [if_pos (by omega), if_neg h]

/-- C2: a completed call succeeds exactly when the observed status code is
in the half-open range 200 to 300; otherwise it rejects with
Non2xxStatusCodeError carrying the observed code, with the sentinel minus
one when no status code could be determined; in particular 199 and 300
fail while 200 and 204 succeed. -/
theorem claim_C2_status_code_policy (parse : List Char → JSVal)
    (chunks : List (List Char)) (headers : HeaderMap) (s : Int) :
    isSuccess (handleResolvingOfResponse parse chunks (some s) headers) =
      decide (200 ≤ s ∧ s < 300) ∧
    handleResolvingOfResponse parse chunks (some s) headers =
      (if 200 ≤ s ∧ s < 300 then
        .ok ⟨headers, (accumulateChunks chunks).map parse⟩
       else .error ⟨s⟩) ∧
    handleResolvingOfResponse parse chunks none headers = .error ⟨-1⟩ ∧
    isSuccess (handleResolvingOfResponse parse chunks (some 199) headers) = false ∧
    isSuccess (handleResolvingOfResponse parse chunks (some 200) headers) = true ∧
    isSuccess (handleResolvingOfResponse parse chunks (some 204) headers) = true ∧
    isSuccess (handleResolvingOfResponse parse chunks (some 300) headers) = false := by
  refine ⟨?_, handleResolvingOfResponse_char parse chunks headers s, rfl, ?_, ?_, ?_, ?_⟩
  · rw [handleResolvingOfResponse_char]
    by_cases h : 200 ≤ s ∧ s < 300
    · simp [h, isSuccess]
    · simp [h, isSuccess]
  · rw [handleResolvingOfResponse_char, if_neg (by decide)]; rfl
  · rw [handleResolvingOfResponse_char, if_pos (by decide)]; rfl
  · rw [handleResolvingOfResponse_char, if_pos (by decide)]; rfl
  · rw [handleResolvingOfResponse_char, if_neg (by decide)]; rfl

/-- C7: when the status code is accepted, the call resolves with the
response header set and with an undefined body exactly when no chunks
arrived, else with the parse of the concatenation of all chunks in arrival
order. -/
theorem claim_C7_resolved_result_shape (parse : List Char → JSVal)
    (chunks : List (List Char)) (headers : HeaderMap) (s : Int)
    (h : 200 ≤ s ∧ s < 300) :
    handleResolvingOfResponse parse chunks (some s) headers =
      .ok ⟨headers,
        match chunks with
        | [] => none
        | c :: rest => some (parse ((c :: rest).flatten))⟩ := by
  simp only [handleResolvingOfResponse]
  rw [if_neg (by omega), accumulateChunks_eq]
  cases chunks <;> rfl

/-- Witness for C7 at the concrete accepted status 204 with two chunks. -/
theorem claim_C7_witness :
    (200 ≤ (204 : Int) ∧ (204 : Int) < 300) ∧
    handleResolvingOfResponse (fun t => JSVal.str t) ["ab".data, "cd".data]
        (some 204) [] =
      .ok ⟨[], some (JSVal.str "abcd".data)⟩ :=
  ⟨by decide,
    claim_C7_resolved_result_shape (fun t => JSVal.str t) ["ab".data, "cd".data]
      [] 204 (by decide)⟩

/- ### The JSON-parse reviver guarding against prototype pollution -/

/-- Modelled from the spec: getJSONParseReviver lives in the external
package of the same project family (the data package) and is not part of
the sources of this repository. Per the spec, the produced reviver strips any
object property literally named as the prototype-chain key, that is the
nine characters underscore-underscore-proto-underscore-underscore, unless
the caller explicitly opted in to allow it. -/
def getJSONParseReviver (allowProtoProperty : Bool) (key : List Char)
    (value : JSVal) : Option JSVal :=
  if allowProtoProperty = false ∧ key = "__proto__".data then none else some value

mutual

/-- Application of a JSON.parse reviver to a parsed value: the reviver is
invoked bottom-up on every object property, and properties for which it
returns the absent value are omitted from the containing object. -/
def applyReviver (r : List Char → JSVal → Option JSVal) : JSVal → JSVal
  | .arr a => .arr (applyReviverArr r a)
  | .obj o => .obj (applyReviverObj r o)
  | v => v

/-- applyReviver on the elements of an array. -/
def applyReviverArr (r : List Char → JSVal → Option JSVal) : JSArr → JSArr
  | .nil => .nil
  | .cons hd tl => .cons (applyReviver r hd) (applyReviverArr r tl)

/-- applyReviver on the properties of an object. -/
def applyReviverObj (r : List Char → JSVal → Option JSVal) : JSObj → JSObj
  | .nil => .nil
  | .cons k v tl =>
    match r k (applyReviver r v) with
    | none => applyReviverObj r tl
    | some v2 => .cons k v2 (applyReviverObj r tl)

end

mutual

/-- No object property at any depth of the value is named as the
prototype-chain key. -/
def valNoProto : JSVal → Bool
  | .arr a => arrNoProto a
  | .obj o => objNoProto o
  | _ => true

/-- valNoProto on every element of an array. -/
def arrNoProto : JSArr → Bool
  | .nil => true
  | .cons hd tl => valNoProto hd && arrNoProto tl

/-- valNoProto on every property of an object, and no property key is the
prototype-chain key. -/
def objNoProto : JSObj → Bool
  | .nil => true
  | .cons k v tl => decide (k ≠ "__proto__".data) && valNoProto v && objNoProto tl

end

mutual

theorem applyReviver_strips_proto (v : JSVal) :
    valNoProto (applyReviver (getJSONParseReviver false) v) = true := by
  cases v with
  | arr a => exact applyReviverArr_strips_proto a
  | obj o => exact applyReviverObj_strips_proto o
  | null => rfl
  | bool b => rfl
  | num n => rfl
  | str s => rfl

theorem applyReviverArr_strips_proto (a : JSArr) :
    arrNoProto (applyReviverArr (getJSONParseReviver false) a) = true := by
  cases a with
  | nil => rfl
  | cons hd tl =>
    simp only [applyReviverArr, arrNoProto, Bool.and_eq_true]
    exact ⟨applyReviver_strips_proto hd, applyReviverArr_strips_proto tl⟩

theorem applyReviverObj_strips_proto (o : JSObj) :
    objNoProto (applyReviverObj (getJSONParseReviver false) o) = true := by
  cases o with
  | nil => rfl
  | cons k v tl =>
    by_cases hk : k = "__proto__".data
    · simp only [applyReviverObj, getJSONParseReviver, hk, and_self, if_pos,
        true_and]
      exact applyReviverObj_strips_proto tl
    · simp only [applyReviverObj, getJSONParseReviver, hk, and_false, if_neg,
        not_false_eq_true, objNoProto, Bool.and_eq_true, decide_eq_true_eq]
      exact ⟨⟨hk, applyReviver_strips_proto v⟩, applyReviverObj_strips_proto tl⟩

end

mutual

theorem applyReviver_id_of_allow (v : JSVal) :
    applyReviver (getJSONParseReviver true) v = v := by
  cases v with
  | arr a => exact congrArg JSVal.arr (applyReviverArr_id_of_allow a)
  | obj o => exact congrArg JSVal.obj (applyReviverObj_id_of_allow o)
  | null => rfl
  | bool b => rfl
  | num n => rfl
  | str s => rfl

theorem applyReviverArr_id_of_allow (a : JSArr) :
    applyReviverArr (getJSONParseReviver true) a = a := by
  cases a with
  | nil => rfl
  | cons hd tl =>
    simp only [applyReviverArr, applyReviver_id_of_allow hd,
      applyReviverArr_id_of_allow tl]

theorem applyReviverObj_id_of_allow (o : JSObj) :
    applyReviverObj (getJSONParseReviver true) o = o := by
  cases o with
  | nil => rfl
  | cons k v tl =>
    simp only [applyReviverObj, getJSONParseReviver, applyReviver_id_of_allow v,
      Bool.true_eq_false, false_and, if_neg, not_false_eq_true,
      applyReviverObj_id_of_allow tl]

end

/-- The reviver fixed at callback-creation time by createCallHTTPEndpoint:
the allowProtoProperty option compared strictly to true selects the
reviver, and the very same reviver value is then handed to whichever of
the two protocol variants is constructed. -/
def createdReviver (allowProtoProperty : Option Bool) : List Char → JSVal → Option JSVal :=
  getJSONParseReviver (decide (allowProtoProperty = some true))

/-- C6: the reviver fixed at callback-creation time strips every object
property named as the prototype-chain key when allowProtoProperty was not
set to true, and retains such properties (acting as the identity) when it
was; the selection depends only on the creation-time option, so the same
reviver serves both protocol variants. -/
theorem claim_C6_reviver_proto_guard (v : JSVal) (o : Option Bool) :
    valNoProto (applyReviver (getJSONParseReviver false) v) = true ∧
    applyReviver (getJSONParseReviver true) v = v ∧
    createdReviver o = getJSONParseReviver (decide (o = some true)) ∧
    valNoProto (applyReviver (createdReviver none) v) = true ∧
    valNoProto (applyReviver (createdReviver (some false)) v) = true ∧
    applyReviver (createdReviver (some true)) v = v := by
  exact ⟨applyReviver_strips_proto v, applyReviver_id_of_allow v, rfl,
    applyReviver_strips_proto v, applyReviver_strips_proto v,
    applyReviver_id_of_allow v⟩

/- ### Per-call control flow of the two protocol variants -/

/-- Observable steps of one invocation of the callback, in order: the
synchronous URL construction, then the pool interactions. -/
inductive CallStep (Conn : Type) where
  | constructedURL (pathname search : List Char)
  | acquired (conn : Conn)
  | released (conn : Conn)

/-- How the request promise settles once a connection is held: successful
resolution, rejection through the response classifier, rejection through a
transport error event, or a synchronous throw during request construction
that the surrounding catch turns into a rejection. -/
inductive BodyOutcome (ρ : Type) where
  | resolved (result : ρ)
  | rejectedNon2xx (code : Int)
  | rejectedTransport
  | syncThrow

/-- Why a call rejected. -/
inductive RejectReason where
  | acquireFailure
  | non2xx (code : Int)
  | transportError
  | thrown

/-- The settled state of the whole call. -/
inductive CallResult (ρ : Type) where
  | resolved (r : ρ)
  | rejected (e : RejectReason)

/-- Mapping from the settled request promise to the settled call. -/
def bodyOutcomeToResult {ρ : Type} : BodyOutcome ρ → CallResult ρ
  | .resolved r => .resolved r
  | .rejectedNon2xx c => .rejected (.non2xx c)
  | .rejectedTransport => .rejected .transportError
  | .syncThrow => .rejected .thrown

/-- callUsingHttp1 from client.ts, as a trace of observable steps: the URL
object is constructed first; then acquire is awaited, and a rejection
there rejects the call with no further step; otherwise the request body
runs inside a try block whose finally clause awaits release on the very
agent returned by acquire, on every way the body can settle. -/
def runHttp1Call {Conn ρ : Type} (basePath path : List Char)
    (query : Option QueryMap) (acquireResult : Except Unit Conn)
    (body : BodyOutcome ρ) : List (CallStep Conn) × CallResult ρ :=
  let u := constructURLObject basePath path query
  match acquireResult with
  | .error _ => ([CallStep.constructedURL u.1 u.2], .rejected .acquireFailure)
  | .ok agent =>
    (CallStep.constructedURL u.1 u.2 :: CallStep.acquired agent ::
        [CallStep.released agent],
      bodyOutcomeToResult body)

/-- callUsingHttp2 from client.ts, as a trace of observable steps: the
structure mirrors the HTTP1 variant, with the session in place of the
agent; session.request and the promise executor sit inside the same try
block whose finally clause awaits release on the acquired session. -/
def runHttp2Call {Conn ρ : Type} (basePath path : List Char)
    (query : Option QueryMap) (acquireResult : Except Unit Conn)
    (body : BodyOutcome ρ) : List (CallStep Conn) × CallResult ρ :=
  let u := constructURLObject basePath path query
  match acquireResult with
  | .error _ => ([CallStep.constructedURL u.1 u.2], .rejected .acquireFailure)
  | .ok session =>
    (CallStep.constructedURL u.1 u.2 :: CallStep.acquired session ::
        [CallStep.released session],
      bodyOutcomeToResult body)

/-- The connections passed to release, in order of release. -/
def releasedConns {Conn : Type} : List (CallStep Conn) → List Conn :=
  List.filterMap fun s =>
    match s with
    | .released c => some c
    | _ => none

/-- C1: for both protocol variants, a successful acquire is paired with
exactly one release of the very same handle, whatever way the call body
settles, and a failed acquire is never followed by a release. -/
theorem claim_C1_acquire_release_pairing {Conn ρ : Type}
    (basePath path : List Char) (query : Option QueryMap)
    (acquireResult : Except Unit Conn) (body : BodyOutcome ρ) :
    releasedConns (runHttp1Call basePath path query acquireResult body).1 =
      (match acquireResult with
       | .error _ => []
       | .ok c => [c]) ∧
    releasedConns (runHttp2Call basePath path query acquireResult body).1 =
      (match acquireResult with
       | .error _ => []
       | .ok c => [c]) := by
  cases acquireResult <;> exact ⟨rfl, rfl⟩

/-- Counterexample to C9: a path that under the claimed behavior must
raise InvalidPathnameError (it would carry both a query and a fragment
delimiter into the URL) is instead returned successfully with the
delimiters percent-encoded, and the call goes on to acquire and release a
connection. -/
theorem claim_C9_counterexample :
    constructURLObject [] "/a?b#c".data none = ("/a%3Fb%23c".data, []) ∧
    (runHttp1Call [] "/a?b#c".data none (Except.ok (0 : Nat))
        (BodyOutcome.resolved (0 : Nat))).1 =
      [CallStep.constructedURL "/a%3Fb%23c".data [],
        CallStep.acquired 0, CallStep.released 0] := by
  exact ⟨by decide, rfl⟩

/-- C9 as amended: the current path construction never raises
InvalidPathnameError; instead every question mark and hash of the
concatenated prefix and path is percent-encoded, and the construction is
the first step of the call, completed synchronously before the acquire
of the pool is invoked, for both protocol variants. -/
theorem claim_C9_amended_construction_first {Conn ρ : Type}
    (basePath path : List Char) (query : Option QueryMap)
    (acquireResult : Except Unit Conn) (body : BodyOutcome ρ) :
    (runHttp1Call basePath path query acquireResult body).1 =
      CallStep.constructedURL (constructURLObject basePath path query).1
          (constructURLObject basePath path query).2 ::
        (match acquireResult with
         | .error _ => []
         | .ok c => [CallStep.acquired c, CallStep.released c]) ∧
    (runHttp2Call basePath path query acquireResult body).1 =
      CallStep.constructedURL (constructURLObject basePath path query).1
          (constructURLObject basePath path query).2 ::
        (match acquireResult with
         | .error _ => []
         | .ok c => [CallStep.acquired c, CallStep.released c]) ∧
    (constructURLObject basePath path query).1 =
      specEncodeDelimiters (basePath ++ path) := by
  cases acquireResult <;>
    exact ⟨rfl, rfl, constructURLObject_pathname basePath path query⟩

/- ### Outgoing headers and body bytes (revision with finalizeOutgoingHeaders) -/

/-- An outgoing header value: string, number, or list of strings, as
produced by getOutgoingHeader. -/
inductive OutHdrVal where
  | str (s : List Char)
  | num (n : Int)
  | strList (ss : List (List Char))
deriving DecidableEq

/-- Outgoing headers as a JS object: insertion-ordered entries with unique
keys. -/
abbrev OutHeaders := List (List Char × OutHdrVal)

/-- JS object key assignment: an existing key is updated in place keeping
its position, a fresh key is appended. This is the effect of the spread
object literal that finalizeOutgoingHeaders builds. -/
def setObjectKey (o : OutHeaders) (k : List Char) (v : OutHdrVal) : OutHeaders :=
  if o.any fun kv => decide (kv.1 = k) then
    o.map fun kv => if kv.1 = k then (k, v) else kv
  else o ++ [(k, v)]

/-- Property read on the header object. -/
def headerGet (o : OutHeaders) (k : List Char) : Option OutHdrVal :=
  (o.find? fun kv => decide (kv.1 = k)).map fun kv => kv.2

/-- A Node buffer encoding, restricted to the variants relevant here. -/
inductive BufEncoding where
  | utf8
  | utf16le
  | latin1
  | ascii
deriving DecidableEq

/-- The JS string naming the encoding, as it is interpolated into the
content-type header value. -/
def BufEncoding.name : BufEncoding → List Char
  | .utf8 => "utf8".data
  | .utf16le => "utf16le".data
  | .latin1 => "latin1".data
  | .ascii => "ascii".data

/-- UTF-16 code units of one code point (surrogate pair above the basic
plane), the unit JS strings are made of. -/
def utf16Units (c : Char) : List Nat :=
  let n := c.toNat
  if n < 0x10000 then [n]
  else [0xD800 + (n - 0x10000) / 0x400, 0xDC00 + (n - 0x10000) % 0x400]

/-- Buffer.from(text, encoding): the bytes of the text in the given
encoding. -/
def encodeBytes (enc : BufEncoding) (s : List Char) : List Nat :=
  match enc with
  | .utf8 => s.flatMap utf8Bytes
  | .utf16le => (s.flatMap utf16Units).flatMap fun u => [u % 256, u / 256 % 256]
  | .latin1 => (s.flatMap utf16Units).map fun u => u % 256
  | .ascii => (s.flatMap utf16Units).map fun u => u % 128

/-- Lowercase hex digit of a value below 16. -/
def hexLowerDigit (n : Nat) : Char :=
  if n < 10 then Char.ofNat (0x30 + n) else Char.ofNat (0x61 + n - 10)

/-- JSON.stringify escaping of one character inside a string literal. -/
def escapeJSONChar (c : Char) : List Char :=
  if c = '"' then ['\\', '"']
  else if c = '\\' then ['\\', '\\']
  else if c = Char.ofNat 8 then ['\\', 'b']
  else if c = '\t' then ['\\', 't']
  else if c = '\n' then ['\\', 'n']
  else if c = Char.ofNat 12 then ['\\', 'f']
  else if c = '\r' then ['\\', 'r']
  else if c.toNat < 0x20 then
    ['\\', 'u', '0', '0', hexLowerDigit (c.toNat / 16), hexLowerDigit (c.toNat % 16)]
  else [c]

mutual

/-- JSON.stringify on a JSON value. -/
def jsonStringify : JSVal → List Char
  | .null => "null".data
  | .bool true => "true".data
  | .bool false => "false".data
  | .num n => (toString n).data
  | .str s => '"' :: (s.flatMap escapeJSONChar ++ ['"'])
  | .arr a => '[' :: (jsonStringifyArrItems a ++ [']'])
  | .obj o => Char.ofNat 123 :: (jsonStringifyObjMembers o ++ [Char.ofNat 125])

/-- Comma-joined serialized elements of an array. -/
def jsonStringifyArrItems : JSArr → List Char
  | .nil => []
  | .cons hd .nil => jsonStringify hd
  | .cons hd tl => jsonStringify hd ++ ',' :: jsonStringifyArrItems tl

/-- Comma-joined serialized members of an object. -/
def jsonStringifyObjMembers : JSObj → List Char
  | .nil => []
  | .cons k v .nil =>
    '"' :: (k.flatMap escapeJSONChar ++ '"' :: ':' :: jsonStringify v)
  | .cons k v tl =>
    ('"' :: (k.flatMap escapeJSONChar ++ '"' :: ':' :: jsonStringify v)) ++
      ',' :: jsonStringifyObjMembers tl

end

/-- The encodingForWriting option: either a fixed encoding or a function
of the outgoing headers. -/
inductive EncodingFunctionality where
  | const (e : BufEncoding)
  | func (f : OutHeaders → BufEncoding)

/-- getBufferEncoding: apply the functionality to the headers (an empty
object when none), or return the constant. -/
def getBufferEncoding (info : EncodingFunctionality)
    (headers : Option OutHeaders) : BufEncoding :=
  match info with
  | .func f => f (headers.getD [])
  | .const e => e

/-- getBodyBuffer: when a body is present, its JSON text encoded to bytes
in the resolved write encoding; absent otherwise. -/
def getBodyBuffer (body : Option JSVal) (encodingForWriting : BufEncoding) :
    Option (List Nat) :=
  body.map fun b => encodeBytes encodingForWriting (jsonStringify b)

/-- finalizeOutgoingHeaders: with no body the headers pass through
untouched; with a body the content-type (JSON plus the charset of the
resolved encoding) and content-length (the byte length of the body
buffer) properties are set on a copy of the headers. -/
def finalizeOutgoingHeaders (headers : Option OutHeaders)
    (body : Option (List Nat)) (enc : BufEncoding) : Option OutHeaders :=
  match body with
  | none => headers
  | some buf =>
    some (setObjectKey
      (setObjectKey (headers.getD []) "content-type".data
        (.str ("application/json; charset=".data ++ enc.name)))
      "content-length".data (.num buf.length))

/-- writeBodyAndEnd: the bytes actually written to the request stream
before it is ended, that is the body buffer when present. -/
def writeBodyAndEnd (bodyBuffer : Option (List Nat)) : List Nat :=
  bodyBuffer.getD []

/-- The header/body preparation sequence of callUsingHttp1 in the revision
with finalizeOutgoingHeaders: resolve the write encoding from the
pre-finalization outgoing headers, build the body buffer, finalize the
headers, and write the buffer. -/
def prepareRequestHttp1 (encodingForWriting : EncodingFunctionality)
    (outgoingHeaders : Option OutHeaders) (body : Option JSVal) :
    Option OutHeaders × List Nat :=
  let bufferEncodingForWriting := getBufferEncoding encodingForWriting outgoingHeaders
  let bodyBuffer := getBodyBuffer body bufferEncodingForWriting
  (finalizeOutgoingHeaders outgoingHeaders bodyBuffer bufferEncodingForWriting,
    writeBodyAndEnd bodyBuffer)

/-- Property read through the optional header object. -/
def headerGetOpt (hs : Option OutHeaders) (k : List Char) : Option OutHdrVal :=
  headerGet (hs.getD []) k

lemma find?_map_set_self (o : OutHeaders) (k : List Char) (v : OutHdrVal)
    (h : (o.any fun kv => decide (kv.1 = k)) = true) :
    ((o.map fun kv => if kv.1 = k then (k, v) else kv).find? fun kv =>
      decide (kv.1 = k)) = some (k, v) := by
  induction o with
  | nil => simp at h
  | cons kv rest ih =>
    by_cases hk : kv.1 = k
    · simp [hk, List.find?_cons]
    · have h' : (rest.any fun kv => decide (kv.1 = k)) = true := by
        rw [List.any_cons] at h
        have hd : decide (kv.1 = k) = false := by simp [hk]
        rw [hd, Bool.false_or] at h
        exact h
      simp [hk, List.find?_cons, ih h']

lemma find?_singleton_self (k : List Char) (v : OutHdrVal) :
    (([(k, v)] : OutHeaders).find? fun kv => decide (kv.1 = k)) = some (k, v) := by
  have hp : (fun kv : List Char × OutHdrVal => decide (kv.1 = k)) (k, v) = true := by
    simp
  exact List.find?_cons_of_pos _ hp

lemma find?_singleton_other (k k' : List Char) (v : OutHdrVal) (hne : k' ≠ k) :
    (([(k, v)] : OutHeaders).find? fun kv => decide (kv.1 = k')) = none := by
  have hneg : ¬ ((fun kv : List Char × OutHdrVal =>
      decide (kv.1 = k')) (k, v) = true) := by
    simp [Ne.symm hne]
  exact (List.find?_cons_of_neg
    (p := fun kv : List Char × OutHdrVal => decide (kv.1 = k')) _ hneg).trans rfl

lemma find?_append_fresh (o : OutHeaders) (k : List Char) (v : OutHdrVal)
    (h : (o.any fun kv => decide (kv.1 = k)) = false) :
    ((o ++ [(k, v)]).find? fun kv => decide (kv.1 = k)) = some (k, v) := by
  rw [List.find?_append]
  have hnone : (o.find? fun kv => decide (kv.1 = k)) = none := by
    rw [List.find?_eq_none]
    intro x hx
    simp only [List.any_eq_false, decide_eq_true_eq] at h
    simp only [decide_eq_true_eq]
    exact h x hx
  rw [hnone, find?_singleton_self]
  rfl

lemma headerGet_set_self (o : OutHeaders) (k : List Char) (v : OutHdrVal) :
    headerGet (setObjectKey o k v) k = some v := by
  unfold setObjectKey headerGet
  cases hb : o.any fun kv => decide (kv.1 = k) with
  | true =>
    rw [if_pos rfl, find?_map_set_self o k v hb]
    rfl
  | false =>
    rw [if_neg Bool.false_ne_true, find?_append_fresh o k v hb]
    rfl

lemma find?_map_set_other (o : OutHeaders) (k k' : List Char) (v : OutHdrVal)
    (hne : k' ≠ k) :
    ((o.map fun kv => if kv.1 = k then (k, v) else kv).find? fun kv =>
      decide (kv.1 = k')) = o.find? fun kv => decide (kv.1 = k') := by
  induction o with
  | nil => rfl
  | cons kv rest ih =>
    by_cases hk : kv.1 = k
    · have hp1 : decide (((k, v) : List Char × OutHdrVal).1 = k') = false := by
        simp [Ne.symm hne]
      have hp2 : decide (kv.1 = k') = false := by
        simp [hk, Ne.symm hne]
      simp only [List.map_cons, if_pos hk, List.find?_cons, hp1, hp2, ih]
    · have hmap : (if kv.1 = k then (k, v) else kv) = kv := if_neg hk
      by_cases hk' : kv.1 = k'
      · have hp : decide (kv.1 = k') = true := by simp [hk']
        simp only [List.map_cons, hmap, List.find?_cons, hp]
      · have hp : decide (kv.1 = k') = false := by simp [hk']
        simp only [List.map_cons, hmap, List.find?_cons, hp, ih]

lemma headerGet_set_other (o : OutHeaders) (k k' : List Char) (v : OutHdrVal)
    (hne : k' ≠ k) :
    headerGet (setObjectKey o k v) k' = headerGet o k' := by
  unfold setObjectKey headerGet
  cases hb : o.any fun kv => decide (kv.1 = k) with
  | true => rw [if_pos rfl, find?_map_set_other o k k' v hne]
  | false =>
    rw [if_neg Bool.false_ne_true, List.find?_append,
      find?_singleton_other k k' v hne, Option.or_none]

/-- C8: when a body is present, the write encoding is resolved from the
pre-finalization headers, the finalized headers carry content-type equal
to application/json with the charset of that encoding and content-length
equal to the exact byte length of the encoded JSON body, and exactly those
bytes are written; with no body the headers pass through unchanged and
nothing is written. -/
theorem claim_C8_body_encoding_and_headers (ef : EncodingFunctionality)
    (hdrs : Option OutHeaders) (b : JSVal) :
    headerGetOpt (prepareRequestHttp1 ef hdrs (some b)).1 "content-type".data =
      some (.str ("application/json; charset=".data ++
        (getBufferEncoding ef hdrs).name)) ∧
    headerGetOpt (prepareRequestHttp1 ef hdrs (some b)).1 "content-length".data =
      some (.num ((encodeBytes (getBufferEncoding ef hdrs) (jsonStringify b)).length :
        Int)) ∧
    (prepareRequestHttp1 ef hdrs (some b)).2 =
      encodeBytes (getBufferEncoding ef hdrs) (jsonStringify b) ∧
    prepareRequestHttp1 ef hdrs none = (hdrs, []) := by
  have hne : ("content-type".data : List Char) ≠ "content-length".data := by decide
  refine ⟨?_, ?_, rfl, rfl⟩
  · show headerGet (setObjectKey (setObjectKey (hdrs.getD [])
      "content-type".data (.str ("application/json; charset=".data ++
        (getBufferEncoding ef hdrs).name)))
      "content-length".data
      (.num ((encodeBytes (getBufferEncoding ef hdrs) (jsonStringify b)).length :
        Int))) "content-type".data = _
    rw [headerGet_set_other _ _ _ _ hne, headerGet_set_self]
  · show headerGet (setObjectKey (setObjectKey (hdrs.getD [])
      "content-type".data (.str ("application/json; charset=".data ++
        (getBufferEncoding ef hdrs).name)))
      "content-length".data
      (.num ((encodeBytes (getBufferEncoding ef hdrs) (jsonStringify b)).length :
        Int))) "content-length".data = _
    rw [headerGet_set_self]
